import Mathlib

/-!
Verification of the workshop repository's scripts against its specification.

The development shallowly embeds the Python code of the four scripts:
* `Workshop 11_Large Language Models and ChatGPT/app.py`
  (`clean_transcript`, `get_transcript_content`, the question-answering
  section around `chain.invoke`),
* `Workshop_9_Deploying_Machine_Learning_Models/demo_deployment_fastapi_docker/app.py`
  (the `POST /predict/` handler),
* `Workshop_9_Deploying_Machine_Learning_Models/iris_streamlit_app/app.py`
  (the straight-line classifier invocation),
* `Workshop6_Python for Visualization and Exploration/app.py`
  (`generate_data` and `data_table`).

Strings are modelled as `List Char` (Python `str` is a sequence of code
points; slicing and `len` count code points).  External operations (the
language model, the YouTube transcript fetch, the pickled classifier, the
numpy samplers) are parameters of the embedded functions; a Python
exception raised by such an operation is an `Except.error` carrying
`str(e)`.
-/

/-! ## Character-list primitives shared by the embeddings -/

/-- `isPre pat s` decides whether `pat` is a prefix of `s`
(character-by-character comparison). -/

def isPre : List Char → List Char → Bool
  | [], _ => true
  | _ :: _, [] => false
  | p :: ps, c :: cs => p == c && isPre ps cs

/-- `containsSub pat s` decides whether `pat` occurs as a contiguous
substring of `s` (Python's `pat in s`). -/

def containsSub (pat : List Char) : List Char → Bool
  | [] => isPre pat []
  | c :: cs => isPre pat (c :: cs) || containsSub pat cs

/-- Fuelled core of Python `str.replace(pat, '')`: scan left to right; on a
match delete it and resume after the deleted occurrence, otherwise keep the
character and move on.  The fuel is only a structural-termination device;
callers always supply fuel at least the length of the scanned list. -/

def deleteAllF (pat : List Char) : Nat → List Char → List Char
  | 0, s => s
  | _ + 1, [] => []
  | f + 1, c :: cs =>
    match pat with
    | [] => c :: cs
    | _ :: ps =>
      if isPre pat (c :: cs) then deleteAllF pat f (cs.drop ps.length)
      else c :: deleteAllF pat f cs

/-- Python `s.replace(pat, '')` for a non-empty pattern: a single
left-to-right pass deleting every (leftmost, non-overlapping) occurrence. -/

def deleteAll (pat s : List Char) : List Char :=
  deleteAllF pat s.length s

/-- Helper of `splitWs`: accumulate the current run of non-whitespace
characters (reversed) while scanning. -/

def splitWsAux : List Char → List Char → List (List Char)
  | [], acc => if acc = [] then [] else [acc.reverse]
  | c :: cs, acc =>
    if c.isWhitespace then
      if acc = [] then splitWsAux cs [] else acc.reverse :: splitWsAux cs []
    else splitWsAux cs (c :: acc)

/-- Python `text.split()`: the maximal whitespace-free runs of the text, in
order, with empty runs dropped. -/

def splitWs (s : List Char) : List (List Char) :=
  splitWsAux s []

/-- Python `' '.join(text.split())`: collapse every whitespace run to a
single space and trim both ends. -/

def normalizeWs (s : List Char) : List Char :=
  List.intercalate [' '] (splitWs s)

/-! ## `clean_transcript` (Workshop 11 `app.py`, lines 58-74) -/

/-- The characters of the literal marker `'[Music]'`. -/

def musicL : List Char := ['[', 'M', 'u', 's', 'i', 'c', ']']

/-- The characters of the literal marker `'[Applause]'`. -/

def applauseL : List Char := ['[', 'A', 'p', 'p', 'l', 'a', 'u', 's', 'e', ']']

/-- Character-level body of `clean_transcript`:
`' '.join(text.split())`, then `.replace('[Music]', '')`, then
`.replace('[Applause]', '')`, then `[:4000]`. -/

def cleanCore (t : List Char) : List Char :=
  (deleteAll applauseL (deleteAll musicL (normalizeWs t))).take 4000

/-- `clean_transcript` from Workshop 11 `app.py`. -/

def clean_transcript (text : String) : String :=
  String.mk (cleanCore text.data)

/-! ## Well-marked transcripts: every '[' starts a complete marker -/

/-- Fuelled scan deciding that every occurrence of '[' begins a complete
'[Music]' or '[Applause]' marker.  Fuel is a structural-termination device;
callers supply at least the length of the list. -/

def wellMarkedF : Nat → List Char → Bool
  | 0, s => s.isEmpty
  | _ + 1, [] => true
  | f + 1, c :: cs =>
    if c = '[' then
      if isPre musicL (c :: cs) then wellMarkedF f (cs.drop 6)
      else if isPre applauseL (c :: cs) then wellMarkedF f (cs.drop 9)
      else false
    else wellMarkedF f cs

/-- A list of characters is well-marked when every '[' in it starts a
complete '[Music]' or '[Applause]' marker occurrence. -/

def wellMarked (s : List Char) : Bool := wellMarkedF s.length s

/-- Decomposition of a well-marked list into plain (non-'[') characters and
complete marker blocks. -/

inductive MBlocks : List Char → Prop where
  | nil : MBlocks []
  | plain {c : Char} {rest : List Char} : c ≠ '[' → MBlocks rest → MBlocks (c :: rest)
  | music {rest : List Char} : MBlocks rest → MBlocks (musicL ++ rest)
  | app {rest : List Char} : MBlocks rest → MBlocks (applauseL ++ rest)

/-- Shape of the text after the '[Music]' pass: plain characters and
complete '[Applause]' blocks only. -/

inductive ABlocks : List Char → Prop where
  | nil : ABlocks []
  | plain {c : Char} {rest : List Char} : c ≠ '[' → ABlocks rest → ABlocks (c :: rest)
  | app {rest : List Char} : ABlocks rest → ABlocks (applauseL ++ rest)

/-! ## FastAPI iris classifier endpoint
(`demo_deployment_fastapi_docker/app.py`) -/

/-- Measurements are modelled as rationals: the handler performs no
arithmetic on them, it only forwards them to the external model. -/

abbrev Measurement := ℚ

/-- Pydantic input schema of `POST /predict/`: four floating-point
measurements. -/

structure PredictionInput where
  sepal_length : Measurement
  sepal_width : Measurement
  petal_length : Measurement
  petal_width : Measurement

/-- Python's normalisation of a list index: a negative index counts from
the end of the list. -/

def pyNorm (len : Nat) (i : Int) : Int :=
  if i < 0 then i + len else i

/-- Python list indexing `l[i]`: `none` models the `IndexError` raised on
an out-of-range index. -/

def pyIndex {α : Type} (l : List α) (i : Int) : Option α :=
  if 0 ≤ pyNorm l.length i then l.get? (pyNorm l.length i).toNat else none

/-- The species labels of the FastAPI app (`iris_types`). -/

def iris_types : List String := ["setosa", "versicolor", "virginica"]

/-- Outcome of one request to the endpoint: a JSON body with the two
fields, or an `HTTPException` with a status code and a detail string. -/

inductive ApiResponse where
  | ok (prediction : String) (prediction_code : Int)
  | httpError (status : Nat) (detail : String)
deriving DecidableEq

/-- The `np.array([[...]])` built by the handler: a single row holding the
four request fields in order. -/

def featuresOf (input_data : PredictionInput) : List (List Measurement) :=
  [[input_data.sepal_length, input_data.sepal_width,
    input_data.petal_length, input_data.petal_width]]

/-- Steps 3-4 of the handler: map the numeric prediction `prediction[0]`
to a label with `iris_types[prediction[0]]` and build the JSON body.  An
out-of-range code raises `IndexError`, caught by the handler's `except`
block and surfaced as a 500 whose detail is
`str(e) = "list index out of range"`. -/

def labelResponse (m : Int) : ApiResponse :=
  match pyIndex iris_types m with
  | some result => ApiResponse.ok result m
  | none => ApiResponse.httpError 500 "list index out of range"

/-- The `POST /predict/` handler.  The pickled classifier is a parameter
`modelPredict`; its `Except.error` carries `str(e)` of an exception raised
inside `model.predict`, and its `Except.ok` value is the integer
`prediction[0]`.  Any exception in the `try` block becomes an
`HTTPException(500, str(e))`. -/

def predict (modelPredict : List (List Measurement) → Except String Int)
    (input_data : PredictionInput) : ApiResponse :=
  match modelPredict (featuresOf input_data) with
  | Except.error e => ApiResponse.httpError 500 e
  | Except.ok m => labelResponse m

/-! ## YouTube transcript retrieval (Workshop 11 `app.py`, lines 77-102) -/

/-- Characters strictly before the first occurrence of `sep` (the whole
list when `sep` is absent). -/

def takeUntil (sep : Char) : List Char → List Char
  | [] => []
  | c :: cs => if c = sep then [] else c :: takeUntil sep cs

/-- Characters strictly after the first occurrence of `sep`, or `none`
when `sep` is absent (the tail of Python `s.split(sep, 1)`). -/

def dropAfterFirst (sep : Char) : List Char → Option (List Char)
  | [] => none
  | c :: cs => if c = sep then some cs else dropAfterFirst sep cs

/-- Python `s.split(sep)` for a one-character separator. -/

def splitOnChar (sep : Char) : List Char → List (List Char)
  | [] => [[]]
  | c :: cs =>
    let r := splitOnChar sep cs
    if c = sep then [] :: r
    else
      match r with
      | [] => [[c]]
      | h :: t => (c :: h) :: t

/-- `urlparse(url).query`: the part of the URL after the first '?' of the
part before the first '#' (empty when there is no '?'). -/

def getQuery (url : List Char) : List Char :=
  match dropAfterFirst '?' (takeUntil '#' url) with
  | none => []
  | some q => q

/-- `parse_qs(query)` restricted to what the script reads: the values of
key 'v', in order.  As in `urllib.parse.parse_qsl` with default options,
pairs are split on '&', a pair without '=' is skipped, and a pair with an
empty value is skipped.  (Percent-decoding of the value is not modelled;
the claims under verification do not depend on it.) -/

def vValues (query : List Char) : List (List Char) :=
  (splitOnChar '&' query).filterMap fun pair =>
    match dropAfterFirst '=' pair with
    | none => none
    | some v =>
      if takeUntil '=' pair = ['v'] ∧ v ≠ [] then some v else none

/-- `query_params.get('v', [None])[0]`: the first 'v' value of the URL's
query string, or `none` when the parameter is missing (or blank, since
`parse_qs` drops blank values). -/

def videoIdOf (url : List Char) : Option (List Char) :=
  (vValues (getQuery url)).head?

/-- `get_transcript_content`.  The external
`YouTubeTranscriptApi.get_transcript` call together with the `t["text"]`
projections is the parameter `fetch`, returning the list of snippet
texts; its `Except.error` carries `str(e)` of an exception raised during
the fetch.  The result pairs the returned content string with the list of
`st.error` messages shown to the user. -/

def get_transcript_content
    (fetch : List Char → Except String (List (List Char)))
    (url : String) : String × List String :=
  match videoIdOf url.data with
  | none => ("", ["Invalid YouTube URL"])
  | some vid =>
    if vid = [] then ("", ["Invalid YouTube URL"])
    else
      match fetch vid with
      | Except.error e => ("", ["Error getting transcript: " ++ e])
      | Except.ok texts =>
        (String.mk (cleanCore (List.intercalate [' '] texts)), [])

/-! ## Question answering (Workshop 11 `app.py`, lines 170-188) -/

/-- UI outputs of the question-answering block. -/

inductive UiOut where
  | analysis (response : String)
  | errorMsg (msg : String)
  | info (msg : String)
deriving DecidableEq

/-- The question-answering block: append the bullet-point instruction when
the checkbox is set and `"bullet points"` does not occur in
`question.lower()`, then call `chain.invoke` inside `try`/`except`.  The
external chain is the parameter `invoke`; its `Except.error` carries
`str(e)`. -/

def runQuestion (invoke : String → String → Except String String)
    (use_bullets : Bool) (content question : String) : List UiOut :=
  let q :=
    if use_bullets &&
        !(containsSub ("bullet points".data) (question.data.map Char.toLower)) then
      question ++ " Please format as bullet points."
    else question
  match invoke content q with
  | Except.ok response => [UiOut.analysis response]
  | Except.error e =>
    [UiOut.errorMsg ("Error: " ++ e),
     UiOut.info "Make sure Ollama is running with the correct model"]

/-! ## Streamlit iris classifier (`iris_streamlit_app/app.py`) -/

/-- The species labels of the Streamlit app (`species_names`). -/

def species_names : List String := ["Setosa", "Versicolor", "Virginica"]

/-- The straight-line classifier invocation of the Streamlit iris app
(lines 87-110): build the input row from the sliders, call
`model.predict` and `model.predict_proba`, and map the returned code to a
label by Python indexing.  The script contains no `try`/`except`, so the
result type is `Except`: an exception raised by either model call (or by
the indexing) propagates out of the script. -/

def iris_streamlit_run
    (predictFn : List Measurement → Except String Int)
    (predictProbaFn : List Measurement → Except String (List Measurement))
    (inputs : List Measurement) : Except String (String × List Measurement) := do
  let prediction ← predictFn inputs
  let prediction_proba ← predictProbaFn inputs
  match pyIndex species_names prediction with
  | some predicted_species => Except.ok (predicted_species, prediction_proba)
  | none => Except.error "list index out of range"

/-! ## Visualization dashboard (Workshop 6 `app.py`) -/

/-- A pandas DataFrame, reduced to what the dashboard observes: the column
labels and the list of rows. -/

structure DataFrame where
  columns : List String
  rows : List (List Measurement)
deriving DecidableEq

/-- `pd.DataFrame({'x': x, 'y': y})`: the two columns in dict insertion
order, rows pairing the two equal-length arrays. -/

def mkFrameXY (x y : List Measurement) : DataFrame :=
  ⟨["x", "y"], List.zipWith (fun a b => [a, b]) x y⟩

/-- The numpy samplers used by `generate_data`, as a stateful source: each
call returns the drawn samples together with the advanced generator
state. -/

structure Rng (σ : Type) where
  randn : Nat → σ → List Measurement × σ
  uniform : Measurement → Measurement → Nat → σ → List Measurement × σ
  exponential : Measurement → Nat → σ → List Measurement × σ

/-- The numpy library guarantee the dashboard relies on: a request for `n`
samples returns exactly `n` samples (at the argument values
`generate_data` uses). -/

def SamplesHaveLength {σ : Type} (rng : Rng σ) : Prop :=
  ∀ (n : Nat) (st : σ),
    (rng.randn n st).1.length = n ∧
    (rng.uniform (-3) 3 n st).1.length = n ∧
    (rng.exponential 1 n st).1.length = n

/-- `generate_data` (a `@reactive.Calc`): draw `x` and then `y` from the
selected distribution and return `pd.DataFrame({'x': x, 'y': y})`.  The
`else` branch covers every selection other than "Normal" and "Uniform". -/

def generate_data {σ : Type} (rng : Rng σ) (st : σ) (n : Nat)
    (dist : String) : DataFrame :=
  if dist = "Normal" then
    let xs := rng.randn n st
    let ys := rng.randn n xs.2
    mkFrameXY xs.1 ys.1
  else if dist = "Uniform" then
    let xs := rng.uniform (-3) 3 n st
    let ys := rng.uniform (-3) 3 n xs.2
    mkFrameXY xs.1 ys.1
  else
    let xs := rng.exponential 1 n st
    let ys := rng.exponential 1 n xs.2
    mkFrameXY xs.1 ys.1

/-- `data_table`: the first 10 rows (`.head(10)`) of the cached
`generate_data()` value. -/

def data_table {σ : Type} (rng : Rng σ) (st : σ) (n : Nat)
    (dist : String) : DataFrame :=
  let df := generate_data rng st n dist
  ⟨df.columns, df.rows.take 10⟩

/-- A deterministic sampler for the witness: `n` zero samples, state
unchanged. -/

def constRng : Rng Unit :=
  ⟨fun n _ => (List.replicate n 0, ()),
   fun _ _ n _ => (List.replicate n 0, ()),
   fun _ n _ => (List.replicate n 0, ())⟩

/-! ## Theorems -/

/-- A character of a prefix pattern occurs in the matched list. -/
theorem mem_of_isPre {pat t : List Char} (h : isPre pat t = true) {c : Char}
    (hc : c ∈ pat) : c ∈ t := by
  induction pat generalizing t with
  | nil => cases hc
  | cons p ps ih =>
    cases t with
    | nil => simp [isPre] at h
    | cons d ds =>
      simp only [isPre, Bool.and_eq_true, beq_iff_eq] at h
      rcases List.mem_cons.mp hc with h1 | h1
      · exact List.mem_cons.mpr (Or.inl (h1.trans h.1))
      · exact List.mem_cons.mpr (Or.inr (ih h.2 h1))

/-- A character of a matched substring pattern occurs in the list. -/
theorem mem_of_containsSub {pat s : List Char} (h : containsSub pat s = true)
    {c : Char} (hc : c ∈ pat) : c ∈ s := by
  induction s with
  | nil =>
    cases pat with
    | nil => cases hc
    | cons p ps => simp [containsSub, isPre] at h
  | cons d ds ih =>
    simp only [containsSub, Bool.or_eq_true] at h
    rcases h with h | h
    · exact mem_of_isPre h hc
    · exact List.mem_cons.mpr (Or.inr (ih h))

/-- A pattern is a prefix of itself followed by anything. -/
theorem isPre_append_self (pat rest : List Char) : isPre pat (pat ++ rest) = true := by
  induction pat with
  | nil => rfl
  | cons p ps ih => simp [isPre, ih]

/-- A matched prefix decomposes the list. -/
theorem append_drop_of_isPre {pat t : List Char} (h : isPre pat t = true) :
    pat ++ t.drop pat.length = t := by
  induction pat generalizing t with
  | nil => simp
  | cons p ps ih =>
    cases t with
    | nil => simp [isPre] at h
    | cons d ds =>
      simp only [isPre, Bool.and_eq_true, beq_iff_eq] at h
      simp [h.1, ih h.2]

/-- A prefix match fails when already the heads differ. -/
theorem isPre_cons_of_ne {p c : Char} (ps cs : List Char) (h : p ≠ c) :
    isPre (p :: ps) (c :: cs) = false := by
  simp [isPre, h]

/-- The fuel of `deleteAllF` is irrelevant once it covers the list length. -/
theorem deleteAllF_congr (pat : List Char) :
    ∀ (f g : Nat) (s : List Char), s.length ≤ f → s.length ≤ g →
      deleteAllF pat f s = deleteAllF pat g s := by
  intro f
  induction f with
  | zero =>
    intro g s h1 _
    have hs : s = [] := List.eq_nil_of_length_eq_zero (Nat.le_zero.mp h1)
    subst hs
    cases g <;> rfl
  | succ f ih =>
    intro g s h1 h2
    cases s with
    | nil => cases g <;> rfl
    | cons c cs =>
      cases g with
      | zero => simp at h2
      | succ g =>
        have hf : cs.length ≤ f := by simp only [List.length_cons] at h1; omega
        have hg : cs.length ≤ g := by simp only [List.length_cons] at h2; omega
        cases pat with
        | nil => rfl
        | cons p ps =>
          simp only [deleteAllF]
          by_cases hm : isPre (p :: ps) (c :: cs) = true
          · rw [if_pos hm, if_pos hm]
            exact ih _ _ (by simp only [List.length_drop]; omega)
              (by simp only [List.length_drop]; omega)
          · rw [if_neg hm, if_neg hm, ih _ _ hf hg]

/-- `str.replace` on the empty string. -/
theorem deleteAll_nil (pat : List Char) : deleteAll pat [] = [] := rfl

/-- Unfolding `deleteAll` at a match: delete it and resume after it. -/
theorem deleteAll_cons_of_match {p : Char} {ps : List Char} {c : Char} {cs : List Char}
    (h : isPre (p :: ps) (c :: cs) = true) :
    deleteAll (p :: ps) (c :: cs) = deleteAll (p :: ps) (cs.drop ps.length) := by
  unfold deleteAll
  simp only [List.length_cons, deleteAllF]
  rw [if_pos h]
  exact deleteAllF_congr _ _ _ _ (by simp only [List.length_drop]; omega) (le_refl _)

/-- Unfolding `deleteAll` at a non-match: keep the character. -/
theorem deleteAll_cons_of_no {pat : List Char} {c : Char} {cs : List Char}
    (hne : pat ≠ []) (h : isPre pat (c :: cs) = false) :
    deleteAll pat (c :: cs) = c :: deleteAll pat cs := by
  cases pat with
  | nil => exact absurd rfl hne
  | cons p ps =>
    unfold deleteAll
    simp only [List.length_cons, deleteAllF]
    rw [if_neg (by simp [h])]

/-- A well-marked list decomposes into plain characters and marker blocks. -/
theorem mblocks_of_wellMarkedF :
    ∀ (f : Nat) (s : List Char), s.length ≤ f → wellMarkedF f s = true → MBlocks s := by
  intro f
  induction f with
  | zero =>
    intro s h1 _
    have hs : s = [] := List.eq_nil_of_length_eq_zero (Nat.le_zero.mp h1)
    subst hs
    exact MBlocks.nil
  | succ f ih =>
    intro s h1 h2
    cases s with
    | nil => exact MBlocks.nil
    | cons c cs =>
      have hcs : cs.length ≤ f := by simp only [List.length_cons] at h1; omega
      by_cases hc : c = '['
      · rw [wellMarkedF, if_pos hc] at h2
        by_cases hm : isPre musicL (c :: cs) = true
        · rw [if_pos hm] at h2
          have hdec := append_drop_of_isPre hm
          have h7 : (c :: cs).drop musicL.length = cs.drop 6 := rfl
          rw [h7] at hdec
          exact hdec ▸ MBlocks.music (ih _ (by simp only [List.length_drop]; omega) h2)
        · rw [if_neg hm] at h2
          by_cases ha : isPre applauseL (c :: cs) = true
          · rw [if_pos ha] at h2
            have hdec := append_drop_of_isPre ha
            have h10 : (c :: cs).drop applauseL.length = cs.drop 9 := rfl
            rw [h10] at hdec
            exact hdec ▸ MBlocks.app (ih _ (by simp only [List.length_drop]; omega) h2)
          · rw [if_neg ha] at h2
            simp at h2
      · rw [wellMarkedF, if_neg hc] at h2
        exact MBlocks.plain hc (ih _ hcs h2)

/-- The '[Music]' pass deletes a leading '[Music]' block. -/
theorem deleteAll_music_head (rest : List Char) :
    deleteAll musicL (musicL ++ rest) = deleteAll musicL rest :=
  deleteAll_cons_of_match (isPre_append_self musicL rest)

/-- The '[Applause]' pass deletes a leading '[Applause]' block. -/
theorem deleteAll_applause_head (rest : List Char) :
    deleteAll applauseL (applauseL ++ rest) = deleteAll applauseL rest :=
  deleteAll_cons_of_match (isPre_append_self applauseL rest)

/-- The '[Music]' pass leaves a leading '[Applause]' block unchanged. -/
theorem deleteAll_music_applause (rest : List Char) :
    deleteAll musicL (applauseL ++ rest) = applauseL ++ deleteAll musicL rest := rfl

/-- The '[Music]' pass maps a well-marked decomposition to one made of
plain characters and '[Applause]' blocks only. -/
theorem ablocks_deleteAll_music {s : List Char} (h : MBlocks s) :
    ABlocks (deleteAll musicL s) := by
  induction h with
  | nil => exact ABlocks.nil
  | @plain c rest hc _ ih =>
    have hm : isPre musicL (c :: rest) = false := by
      unfold musicL
      exact isPre_cons_of_ne _ _ (Ne.symm hc)
    rw [deleteAll_cons_of_no (by decide) hm]
    exact ABlocks.plain hc ih
  | @music rest _ ih =>
    rw [deleteAll_music_head]
    exact ih
  | @app rest _ ih =>
    rw [deleteAll_music_applause]
    exact ABlocks.app ih

/-- After both passes on a well-marked list no '[' remains. -/
theorem no_bracket_deleteAll_applause {s : List Char} (h : ABlocks s) :
    '[' ∉ deleteAll applauseL s := by
  induction h with
  | nil =>
    rw [deleteAll_nil]
    exact List.not_mem_nil _
  | @plain c rest hc _ ih =>
    have ha : isPre applauseL (c :: rest) = false := by
      unfold applauseL
      exact isPre_cons_of_ne _ _ (Ne.symm hc)
    rw [deleteAll_cons_of_no (by decide) ha]
    intro hmem
    rcases List.mem_cons.mp hmem with h1 | h1
    · exact hc h1.symm
    · exact ih h1
  | @app rest _ ih =>
    rw [deleteAll_applause_head]
    exact ih

/-- A pattern containing '[' cannot occur in a '['-free list. -/
theorem containsSub_eq_false_of_no_bracket {s : List Char} (hs : '[' ∉ s)
    (pat : List Char) (hp : '[' ∈ pat) : containsSub pat s = false := by
  cases h : containsSub pat s with
  | false => rfl
  | true => exact absurd (mem_of_containsSub h hp) hs

/-- Counterexample to claim C1 as stated: for the input `"[Mu[Music]sic]"`,
`clean_transcript` deletes the nested occurrence of `'[Music]'` in a single
left-to-right pass and the deletion assembles a fresh occurrence, so the
returned string (`"[Music]"`) still contains the literal substring
`'[Music]'`. -/
theorem clean_transcript_nested_marker_cex :
    clean_transcript "[Mu[Music]sic]" = "[Music]" ∧
    containsSub musicL (clean_transcript "[Mu[Music]sic]").data = true := by
  constructor
  · decide
  · decide

/-- Claim C1 (amended): for every input string whose whitespace-normalized
form is well-marked — every occurrence of '[' begins a complete '[Music]'
or '[Applause]' marker — the string returned by `clean_transcript` contains
no occurrence of the literal substring '[Music]' and no occurrence of the
literal substring '[Applause]'.  (For general inputs the single-pass
`str.replace` can leave behind a marker assembled by a deletion, as the
counterexample `"[Mu[Music]sic]"` shows.) -/
theorem clean_transcript_wellMarked_no_markers (text : String)
    (h : wellMarked (normalizeWs text.data) = true) :
    containsSub musicL (clean_transcript text).data = false ∧
    containsSub applauseL (clean_transcript text).data = false := by
  have hm : MBlocks (normalizeWs text.data) :=
    mblocks_of_wellMarkedF _ _ (le_refl _) h
  have ha : ABlocks (deleteAll musicL (normalizeWs text.data)) :=
    ablocks_deleteAll_music hm
  have hb : '[' ∉ deleteAll applauseL (deleteAll musicL (normalizeWs text.data)) :=
    no_bracket_deleteAll_applause ha
  have hb2 : '[' ∉ (clean_transcript text).data := by
    intro hx
    exact hb (List.take_subset _ _ hx)
  exact ⟨containsSub_eq_false_of_no_bracket hb2 _ (by decide),
    containsSub_eq_false_of_no_bracket hb2 _ (by decide)⟩

/-- Witness for the amended claim C1 at a concrete well-marked transcript
containing both markers. -/
theorem clean_transcript_wellMarked_no_markers_witness :
    wellMarked (normalizeWs ("hello [Music] big  crowd [Applause] bye".data)) = true ∧
    (containsSub musicL (clean_transcript "hello [Music] big  crowd [Applause] bye").data = false ∧
     containsSub applauseL (clean_transcript "hello [Music] big  crowd [Applause] bye").data = false) :=
  ⟨by decide, clean_transcript_wellMarked_no_markers _ (by decide)⟩

/-- Claim C5: for every input string, the string returned by
`clean_transcript` has length at most 4000 characters (Python
`text[:4000]` slices by code points, as does `List.take` on the character
list). -/
theorem clean_transcript_length_le_4000 (text : String) :
    (clean_transcript text).length ≤ 4000 := by
  show (cleanCore text.data).length ≤ 4000
  unfold cleanCore
  exact List.length_take_le _ _

/-- A value returned by Python indexing is an element of the list. -/
theorem mem_of_pyIndex {α : Type} {l : List α} {i : Int} {a : α}
    (h : pyIndex l i = some a) : a ∈ l := by
  unfold pyIndex at h
  split at h
  · exact List.get?_mem h
  · cases h

/-- Claim C3: for every well-formed four-float input (and any behaviour of
the external classifier), a successful response of the predict endpoint
has its `prediction` field equal to one of exactly the three labels
`'setosa'`, `'versicolor'`, `'virginica'`. -/
theorem predict_label_in_three
    (modelPredict : List (List Measurement) → Except String Int)
    (input_data : PredictionInput) (p : String) (c : Int)
    (h : predict modelPredict input_data = ApiResponse.ok p c) :
    p = "setosa" ∨ p = "versicolor" ∨ p = "virginica" := by
  cases hcall : modelPredict (featuresOf input_data) with
  | error e => simp [predict, hcall] at h
  | ok m =>
    simp only [predict, hcall] at h
    unfold labelResponse at h
    cases hidx : pyIndex iris_types m with
    | none => rw [hidx] at h; cases h
    | some r =>
      rw [hidx] at h
      injection h with hp hc
      subst hp
      have := mem_of_pyIndex hidx
      simpa [iris_types] using this

/-- Witness for claim C3 at a concrete input and classifier. -/
theorem predict_label_in_three_witness :
    predict (fun _ => Except.ok 0) ⟨5, 3, 1, 0⟩ = ApiResponse.ok "setosa" 0 ∧
    ("setosa" = "setosa" ∨ "setosa" = "versicolor" ∨ "setosa" = "virginica") :=
  ⟨rfl, predict_label_in_three (fun _ => Except.ok 0) ⟨5, 3, 1, 0⟩ "setosa" 0 rfl⟩

/-- Claim C4: for every well-formed four-float input, the handler either
returns a response holding a species label and the numeric prediction
code, or an HTTP error with status 500 whose detail is the string form of
the exception that occurred (the model's error text, or the `IndexError`
text); no other outcome is possible. -/
theorem predict_outcomes_complete
    (modelPredict : List (List Measurement) → Except String Int)
    (input_data : PredictionInput) :
    (∃ p c, predict modelPredict input_data = ApiResponse.ok p c ∧
      (p = "setosa" ∨ p = "versicolor" ∨ p = "virginica")) ∨
    (∃ d, predict modelPredict input_data = ApiResponse.httpError 500 d ∧
      (modelPredict (featuresOf input_data) = Except.error d ∨
        d = "list index out of range")) := by
  cases hcall : modelPredict (featuresOf input_data) with
  | error e =>
    refine Or.inr ⟨e, ?_, Or.inl rfl⟩
    simp [predict, hcall]
  | ok m =>
    cases hidx : pyIndex iris_types m with
    | none =>
      refine Or.inr ⟨"list index out of range", ?_, Or.inr rfl⟩
      simp [predict, hcall, labelResponse, hidx]
    | some r =>
      refine Or.inl ⟨r, m, ?_, ?_⟩
      · simp [predict, hcall, labelResponse, hidx]
      · have := mem_of_pyIndex hidx
        simpa [iris_types] using this

/-- Claim C7: the handler forwards the input unchanged — it consults the
model only on the single row `[sepal_length, sepal_width, petal_length,
petal_width]` of the request body, in that order, with no value
transformed: two models that agree on exactly that row give the handler
identical outcomes. -/
theorem predict_forwards_input_unchanged
    (mp1 mp2 : List (List Measurement) → Except String Int)
    (input_data : PredictionInput)
    (h : mp1 [[input_data.sepal_length, input_data.sepal_width,
               input_data.petal_length, input_data.petal_width]] =
         mp2 [[input_data.sepal_length, input_data.sepal_width,
               input_data.petal_length, input_data.petal_width]]) :
    predict mp1 input_data = predict mp2 input_data := by
  unfold predict featuresOf
  rw [h]

/-- Witness for claim C7: a constant model and a shape-checking model agree
on the forwarded row, so the handler cannot tell them apart. -/
theorem predict_forwards_input_unchanged_witness :
    predict (fun _ => Except.ok 1) ⟨5, 3, 1, 0⟩ =
    predict (fun rows => if rows.length = 1 then Except.ok 1
      else Except.error "bad shape") ⟨5, 3, 1, 0⟩ :=
  predict_forwards_input_unchanged _ _ ⟨5, 3, 1, 0⟩ rfl

/-- Claim C9: in every successful response the two fields are mutually
consistent — `prediction_code` is in `{0, 1, 2}` and `prediction` is the
element of `iris_types` at that index.  The pickled classifier is not part
of the sources; per the spec and the handler's own comment its output is
an integer 0, 1 or 2, which is the `hmodel` hypothesis. -/
theorem predict_fields_consistent
    (modelPredict : List (List Measurement) → Except String Int)
    (input_data : PredictionInput) (p : String) (c : Int)
    (hmodel : ∀ f r, modelPredict f = Except.ok r → 0 ≤ r ∧ r ≤ 2)
    (h : predict modelPredict input_data = ApiResponse.ok p c) :
    (c = 0 ∨ c = 1 ∨ c = 2) ∧ iris_types.get? c.toNat = some p := by
  cases hcall : modelPredict (featuresOf input_data) with
  | error e => simp [predict, hcall] at h
  | ok m =>
    simp only [predict, hcall] at h
    obtain ⟨hm0, hm2⟩ := hmodel _ _ hcall
    unfold labelResponse at h
    cases hidx : pyIndex iris_types m with
    | none => rw [hidx] at h; cases h
    | some r =>
      rw [hidx] at h
      injection h with hp hc
      subst hp
      subst hc
      unfold pyIndex pyNorm at hidx
      rw [if_neg (by omega : ¬ m < (0 : Int))] at hidx
      rw [if_pos (by omega : (0 : Int) ≤ m)] at hidx
      exact ⟨by omega, hidx⟩

/-- Witness for claim C9 at a concrete input and a classifier returning
code 0. -/
theorem predict_fields_consistent_witness :
    ((0 : Int) = 0 ∨ (0 : Int) = 1 ∨ (0 : Int) = 2) ∧
    iris_types.get? ((0 : Int)).toNat = some "setosa" :=
  predict_fields_consistent (fun _ => Except.ok 0) ⟨5, 3, 1, 0⟩ "setosa" 0
    (by intro f r hr; injection hr with hr; omega) rfl

/-- Claim C6: for every URL whose query string lacks a 'v' parameter (or
whose 'v' parameter is empty, so that `parse_qs` yields no 'v' value),
`get_transcript_content` reports "Invalid YouTube URL" and returns the
empty string; the result is the same for every fetch function, i.e. no
transcript fetch is attempted. -/
theorem get_transcript_invalid_url
    (fetch : List Char → Except String (List (List Char))) (url : String)
    (h : videoIdOf url.data = none) :
    get_transcript_content fetch url = ("", ["Invalid YouTube URL"]) := by
  unfold get_transcript_content
  rw [h]

/-- Witness for claim C6 at a URL with no 'v' parameter. -/
theorem get_transcript_invalid_url_witness :
    videoIdOf ("https://www.youtube.com/watch?t=1369s".data) = none ∧
    get_transcript_content (fun _ => Except.ok [])
      "https://www.youtube.com/watch?t=1369s" = ("", ["Invalid YouTube URL"]) :=
  ⟨by decide, get_transcript_invalid_url _ _ (by decide)⟩

/-- Claim C8: `get_transcript_content` is total at its public interface:
for every URL and every behaviour of the fetch it returns a pair (its
whole body runs inside `try`/`except`, so no exception escapes), and
every outcome is either a failure — empty string plus a reported error —
or the cleaned joined transcript with no error. -/
theorem get_transcript_content_total
    (fetch : List Char → Except String (List (List Char))) (url : String) :
    (∃ msg, get_transcript_content fetch url = ("", [msg])) ∨
    (∃ vid texts, videoIdOf url.data = some vid ∧ fetch vid = Except.ok texts ∧
      get_transcript_content fetch url =
        (String.mk (cleanCore (List.intercalate [' '] texts)), [])) := by
  cases hv : videoIdOf url.data with
  | none =>
    refine Or.inl ⟨"Invalid YouTube URL", ?_⟩
    simp [get_transcript_content, hv]
  | some vid =>
    by_cases hvid : vid = []
    · refine Or.inl ⟨"Invalid YouTube URL", ?_⟩
      simp [get_transcript_content, hv, hvid]
    · cases hf : fetch vid with
      | error e =>
        refine Or.inl ⟨"Error getting transcript: " ++ e, ?_⟩
        simp [get_transcript_content, hv, hvid, hf]
      | ok texts =>
        refine Or.inr ⟨vid, texts, rfl, hf, ?_⟩
        simp [get_transcript_content, hv, hvid, hf]

/-- Counterexample to claim C2 as stated: in the Streamlit iris app the
`model.predict` call site (line 93) has no exception handler — the script
contains no `try`/`except` at all — so an exception raised by the
classifier propagates out of the script instead of being caught and
surfaced as a user-facing message. -/
theorem iris_streamlit_predict_propagates :
    iris_streamlit_run (fun _ => Except.error "model failure")
      (fun _ => Except.error "model failure")
      [(5.4 : Measurement), 3.4, 1.3, 0.2] = Except.error "model failure" := rfl

/-- Claim C2 (amended): the enclosing-handler property holds for the LLM
script and the FastAPI script — the FastAPI classifier predict, the
transcript fetch and the chain invocation are each enclosed in an
exception handler at the call site and surfaced as a user-facing message
(HTTP 500 carrying the exception text, or an inline UI error) — but not
for the Streamlit iris app, whose `model.predict` / `model.predict_proba`
calls have no handler and whose exceptions therefore propagate (last
conjunct); the visualization script makes no calls of the listed kinds. -/
theorem handled_external_calls :
    (∀ (e : String) (input_data : PredictionInput),
      predict (fun _ => Except.error e) input_data =
        ApiResponse.httpError 500 e) ∧
    (∀ (e : String) (url : String) (vid : List Char),
      videoIdOf url.data = some vid → vid ≠ [] →
      get_transcript_content (fun _ => Except.error e) url =
        ("", ["Error getting transcript: " ++ e])) ∧
    (∀ (e : String) (use_bullets : Bool) (content question : String),
      runQuestion (fun _ _ => Except.error e) use_bullets content question =
        [UiOut.errorMsg ("Error: " ++ e),
         UiOut.info "Make sure Ollama is running with the correct model"]) ∧
    (∀ (e : String)
       (probaFn : List Measurement → Except String (List Measurement))
       (inputs : List Measurement),
      iris_streamlit_run (fun _ => Except.error e) probaFn inputs =
        Except.error e) := by
  refine ⟨?_, ?_, ?_, ?_⟩
  · intro e input_data
    rfl
  · intro e url vid hv hvid
    simp [get_transcript_content, hv, hvid]
  · intro e use_bullets content question
    rfl
  · intro e probaFn inputs
    rfl

/-- Witness for the amended claim C2: the transcript-fetch handler
surfaces a concrete fetch exception on the script's default URL. -/
theorem handled_external_calls_witness :
    videoIdOf ("https://www.youtube.com/watch?v=LWMzyfvuehA&t=1369s".data) =
      some ("LWMzyfvuehA".data) ∧
    get_transcript_content (fun _ => Except.error "no element found")
      "https://www.youtube.com/watch?v=LWMzyfvuehA&t=1369s" =
      ("", ["Error getting transcript: no element found"]) :=
  ⟨by decide,
   handled_external_calls.2.1 "no element found"
     "https://www.youtube.com/watch?v=LWMzyfvuehA&t=1369s"
     ("LWMzyfvuehA".data) (by decide) (by decide)⟩

/-- Claim C10: for every slider value `10 ≤ n ≤ 500` and every
distribution choice among "Normal", "Uniform", "Exponential",
`generate_data` returns a DataFrame with exactly `n` rows and exactly the
two columns 'x' and 'y', and `data_table` shows at most the first 10 of
those rows (exactly 10, since `n ≥ 10`). -/
theorem generate_data_shape {σ : Type} (rng : Rng σ) (st : σ) (n : Nat)
    (dist : String) (hlen : SamplesHaveLength rng)
    (hn1 : 10 ≤ n) (hn2 : n ≤ 500)
    (hdist : dist = "Normal" ∨ dist = "Uniform" ∨ dist = "Exponential") :
    (generate_data rng st n dist).rows.length = n ∧
    (generate_data rng st n dist).columns = ["x", "y"] ∧
    (data_table rng st n dist).rows =
      (generate_data rng st n dist).rows.take 10 ∧
    (data_table rng st n dist).rows.length = 10 := by
  have hmain : (generate_data rng st n dist).rows.length = n ∧
      (generate_data rng st n dist).columns = ["x", "y"] := by
    rcases hdist with h | h | h <;> subst h
    · obtain ⟨hx, -, -⟩ := hlen n st
      obtain ⟨hy, -, -⟩ := hlen n (rng.randn n st).2
      constructor
      · simp [generate_data, mkFrameXY, List.length_zipWith, hx, hy]
      · simp [generate_data, mkFrameXY]
    · obtain ⟨-, hx, -⟩ := hlen n st
      obtain ⟨-, hy, -⟩ := hlen n (rng.uniform (-3) 3 n st).2
      constructor
      · simp [generate_data, mkFrameXY, List.length_zipWith, hx, hy]
      · simp [generate_data, mkFrameXY]
    · obtain ⟨-, -, hx⟩ := hlen n st
      obtain ⟨-, -, hy⟩ := hlen n (rng.exponential 1 n st).2
      constructor
      · simp [generate_data, mkFrameXY, List.length_zipWith, hx, hy]
      · simp [generate_data, mkFrameXY]
  refine ⟨hmain.1, hmain.2, rfl, ?_⟩
  show ((generate_data rng st n dist).rows.take 10).length = 10
  rw [List.length_take, hmain.1]
  omega

/-- Witness for claim C10 at `n = 12` with the "Uniform" choice. -/
theorem generate_data_shape_witness :
    (generate_data constRng () 12 "Uniform").rows.length = 12 ∧
    (generate_data constRng () 12 "Uniform").columns = ["x", "y"] ∧
    (data_table constRng () 12 "Uniform").rows =
      (generate_data constRng () 12 "Uniform").rows.take 10 ∧
    (data_table constRng () 12 "Uniform").rows.length = 10 :=
  generate_data_shape constRng () 12 "Uniform"
    (by intro n st; simp [constRng]) (by omega) (by omega)
    (Or.inr (Or.inl rfl))
